import Mathlib

/-!
Verification of the account actuators of `opentron`
(`opentron/src/manager/actuators/account.rs`): the `AccountUpdateContract`
and `AccountPermissionUpdateContract` validate/execute pairs, the
`check_permission` helper, and `find_account_by_name`, together with the
state-database facade they use. Byte strings are lists of bytes, machine
integers are `Int` with explicit i64 bounds where the code checks overflow,
and fallible operations return `Except`/`Option`.
-/

set_option maxRecDepth 40000

namespace OpenTron

/-- Modelled from the spec: `constants::MAX_NUM_OF_KEYS_IN_PERMISSION` is not
in the sources; the spec's constants table gives `MAX_KEYS_PER_PERMISSION` = 5. -/
def MAX_NUM_OF_KEYS_IN_PERMISSION : Nat := 5

/-- Modelled from the spec: `constants::MAX_NUM_OF_ACTIVE_PERMISSIONS` is not
in the sources; the spec's constants table gives `MAX_ACTIVE_PERMISSIONS` = 8. -/
def MAX_NUM_OF_ACTIVE_PERMISSIONS : Nat := 8

/-- A byte string: each entry is one byte. -/
abbrev Bytes := List Nat

/-- Modelled from the spec: `keys::Address::try_from` is not in the sources;
the spec says an Address is a fixed-width 21-byte identifier, constructible
from its byte form, rejecting malformed input. -/
def addressParse (b : Bytes) : Option Bytes :=
  if b.length = 21 then some b else none

/-- `i64::MAX`. -/
def i64Max : Int := 9223372036854775807

/-- `i64::MIN`. -/
def i64Min : Int := -9223372036854775808

/-- `proto2::common::Permission.keys` entry: `{address: bytes, weight: int64}`. -/
structure PermissionKey where
  address : Bytes
  weight : Int
deriving DecidableEq

/-- `proto2::common::Permission`, restricted to the fields the actuators read. -/
structure Permission where
  threshold : Int
  name : Bytes
  parent_id : Int
  operations : Bytes
  keys : List PermissionKey
deriving DecidableEq

/-- `proto2::common::permission::PermissionType`. -/
inductive PermissionType
  | Owner
  | Witness
  | Active
deriving DecidableEq

/-- `proto2::state::OwnerPermission` as written by `execute`. -/
structure OwnerPermission where
  threshold : Int
  keys : List PermissionKey
deriving DecidableEq

/-- `proto2::state::ActivePermission` as written by `execute`. -/
structure ActivePermission where
  threshold : Int
  keys : List PermissionKey
  operations : Bytes
  permission_name : Bytes
deriving DecidableEq

/-- `proto2::state::Account`, restricted to the fields the actuators touch;
`extraData` stands for the fields the spec treats opaquely. -/
structure Account where
  name : Bytes
  balance : Int
  owner_permission : Option OwnerPermission
  active_permissions : List ActivePermission
  extraData : Nat
deriving DecidableEq

/-- The witness record: `signature_key` is the field `execute` writes;
`extraData` stands for the other fields. -/
structure WitnessRecord where
  signature_key : Bytes
  extraData : Nat
deriving DecidableEq

/-- The state database: the account and witness key families as association
lists (iteration order = list order, deterministic), the chain parameters the
actuators read, and the blackhole sink balance. -/
structure State where
  accounts : List (Bytes × Account)
  witnesses : List (Bytes × WitnessRecord)
  allowUpdateAccountName : Int
  allowMultisig : Int
  accountPermissionUpdateFee : Int
  blackholeBalance : Int
deriving DecidableEq

/-- `state_db.get`: the first entry of the family with the given key. -/
def lookupAssoc {α : Type} : List (Bytes × α) → Bytes → Option α
  | [], _ => none
  | (b, v) :: rest, a => if b = a then some v else lookupAssoc rest a

/-- `state_db.put_key`: replace the first entry with the given key, or append. -/
def updateAssoc {α : Type} : List (Bytes × α) → Bytes → α → List (Bytes × α)
  | [], a, v => [(a, v)]
  | (b, w) :: rest, a, v =>
    if b = a then (a, v) :: rest else (b, w) :: updateAssoc rest a v

/-- Modelled from the spec: `Manager::add_to_blackhole` is not in the sources;
the spec says it credits the sink account and fails only on storage error
(never, in this pure model). -/
def add_to_blackhole (st : State) (amount : Int) : State :=
  { st with blackholeBalance := st.blackholeBalance + amount }

/-- Modelled from the spec: `Account::adjust_balance` is not in the sources;
the spec says the balance is non-negative and that underflow fails. -/
def adjust_balance (a : Account) (delta : Int) : Option Account :=
  if a.balance + delta < 0 then none else some { a with balance := a.balance + delta }

/-- The transaction-scoped context, restricted to the field the actuators use. -/
structure TransactionContext where
  contract_fee : Int
deriving DecidableEq

/-- `proto2::chain::transaction::Result`, restricted to the success value. -/
inductive TransactionResult
  | success
deriving DecidableEq

/-- Abnormal termination of `execute`: the `.unwrap()`, `must_get` and
indexing points the source treats as programmer errors. -/
inductive ExecErr
  | assertionFailure : String → ExecErr
deriving DecidableEq

/-- `contract_pb::AccountUpdateContract`. -/
structure AccountUpdateContract where
  owner_address : Bytes
  account_name : Bytes
deriving DecidableEq

/-- `contract_pb::AccountPermissionUpdateContract`. -/
structure AccountPermissionUpdateContract where
  owner_address : Bytes
  owner : Option Permission
  witness : Option Permission
  actives : List Permission
deriving DecidableEq

/-- `find_account_by_name` (account.rs lines 188-199): `for_each` over the
account family, overwriting `found` on every match, so the last match in
iteration order wins. -/
def find_account_by_name (st : State) (acct_name : Bytes) : Option Account :=
  st.accounts.foldl (fun found kv => if kv.2.name = acct_name then some kv.2 else found) none

/-- The key loop of `check_permission` (lines 223-239): per key, address
parse, weight positivity, checked signed-64-bit addition into `weight_sum`,
and duplicate detection against the `addrs` accumulator. -/
def checkKeysLoop : List PermissionKey → Int → List Bytes → Except String (Int × List Bytes)
  | [], weight_sum, addrs => .ok (weight_sum, addrs)
  | key :: rest, weight_sum, addrs =>
    if (addressParse key.address).isNone then .error "invalid key address"
    else if key.weight ≤ 0 then .error "weight of key should be greater than 0"
    else if weight_sum + key.weight > i64Max ∨ weight_sum + key.weight < i64Min then
      .error "math overflow"
    else if key.address ∈ addrs then .error "duplicated address in keys"
    else checkKeysLoop rest (weight_sum + key.weight) (addrs ++ [key.address])

/-- One bit of the 256-bit operations mask:
`(perm.operations[type_code / 8] >> (type_code % 8)) & 1` (line 257). -/
def opBit (ops : Bytes) (i : Nat) : Nat :=
  ((ops.getD (i / 8) 0) >>> (i % 8)) &&& 1

/-- The `for type_code in 0..256` scan (lines 256-261), at position `i` with
the given number of remaining iterations; `definedCode i` stands for
`ContractType::from_i32(i).is_some()`, an external enum not in the sources. -/
def checkOpsLoop (definedCode : Nat → Bool) (ops : Bytes) : Nat → Nat → Except String Unit
  | _, 0 => .ok ()
  | i, n + 1 =>
    if opBit ops i ≠ 0 ∧ definedCode i = false then
      .error ("operation of " ++ toString i ++ " is undefined")
    else checkOpsLoop definedCode ops (i + 1) n

/-- `check_permission` (lines 202-266). -/
def check_permission (definedCode : Nat → Bool) (perm : Permission)
    (perm_type : PermissionType) : Except String Unit :=
  if perm.keys.length > MAX_NUM_OF_KEYS_IN_PERMISSION then
    .error ("number of keys in permission should not be greater than "
      ++ toString MAX_NUM_OF_KEYS_IN_PERMISSION)
  else if perm.keys.isEmpty then .error "no permission key provided"
  else if perm.threshold ≤ 0 then .error "permission threshold should be greater than 0"
  else if perm.name.length > 32 then .error "permission name is too long"
  else if perm.parent_id ≠ 0 then .error "parent_id must be 0(owner)"
  else
    match checkKeysLoop perm.keys 0 [] with
    | .error e => .error e
    | .ok (weight_sum, _) =>
      if weight_sum < perm.threshold then
        .error "sum of all weights should be greater than threshold"
      else
        match perm_type with
        | .Owner | .Witness =>
          if perm.operations.isEmpty = false then .error "no operations vec needed"
          else .ok ()
        | .Active =>
          if perm.operations.isEmpty ∨ perm.operations.length ≠ 32 then
            .error "operations vec length must be 32"
          else checkOpsLoop definedCode perm.operations 0 256

/-- `AccountUpdateContract::validate` (lines 19-46). -/
def AccountUpdateContract.validate (c : AccountUpdateContract) (st : State)
    (ctx : TransactionContext) : Except String TransactionContext :=
  if c.account_name.length > 200 then .error "invalid account name"
  else
    match addressParse c.owner_address with
    | none => .error "invalid owner_address"
    | some owner_address =>
      match lookupAssoc st.accounts owner_address with
      | none => .error "account not exists"
      | some acct =>
        if acct.name.isEmpty = false ∧ st.allowUpdateAccountName = 0 then
          .error "account name already exists"
        else if st.allowUpdateAccountName = 0
            ∧ (find_account_by_name st c.account_name).isSome then
          .error "the same account name already exists"
        else .ok ctx

/-- `AccountUpdateContract::execute` (lines 48-59). -/
def AccountUpdateContract.execute (c : AccountUpdateContract) (st : State)
    (_ctx : TransactionContext) : Except ExecErr (TransactionResult × State) :=
  match addressParse c.owner_address with
  | none => .error (.assertionFailure "invalid owner_address")
  | some owner_address =>
    match lookupAssoc st.accounts owner_address with
    | none => .error (.assertionFailure "must_get account")
    | some owner_acct =>
      let owner_acct := { owner_acct with name := c.account_name }
      .ok (.success, { st with accounts := updateAssoc st.accounts owner_address owner_acct })

/-- `BuiltinContractExecutorExt::fee` for `AccountPermissionUpdateContract`
(lines 179-184). -/
def AccountPermissionUpdateContract.fee (_c : AccountPermissionUpdateContract)
    (st : State) : Int :=
  st.accountPermissionUpdateFee

/-- The `for active in &self.actives` loop of validate (lines 107-109). -/
def checkActives (definedCode : Nat → Bool) : List Permission → Except String Unit
  | [] => .ok ()
  | p :: rest =>
    match check_permission definedCode p .Active with
    | .error e => .error e
    | .ok () => checkActives definedCode rest

/-- The witness-consistency block of validate (lines 84-96). -/
def witnessBlock (definedCode : Nat → Bool) (c : AccountPermissionUpdateContract)
    (is_witness : Bool) : Except String Unit :=
  if is_witness then
    match c.witness with
    | some wit_perm => check_permission definedCode wit_perm .Witness
    | none => .error "missing witness permission"
  else if c.witness.isSome then .error "account is not a witness"
  else .ok ()

/-- `AccountPermissionUpdateContract::validate` (lines 64-118). -/
def AccountPermissionUpdateContract.validate (definedCode : Nat → Bool)
    (c : AccountPermissionUpdateContract) (st : State)
    (ctx : TransactionContext) : Except String TransactionContext :=
  if st.allowMultisig = 0 then .error "multisig is disabled on chain"
  else
    match addressParse c.owner_address with
    | none => .error "invalid owner_address"
    | some owner_address =>
      match lookupAssoc st.accounts owner_address with
      | none => .error "account not exists"
      | some acct =>
        match c.owner with
        | none => .error "missing owner permission"
        | some owner_perm =>
          match witnessBlock definedCode c (lookupAssoc st.witnesses owner_address).isSome with
          | .error e => .error e
          | .ok () =>
            if c.actives.isEmpty then .error "missing active permissions"
            else if c.actives.length > MAX_NUM_OF_ACTIVE_PERMISSIONS then
              .error "too many active permissions"
            else
              match check_permission definedCode owner_perm .Owner with
              | .error e => .error e
              | .ok () =>
                match checkActives definedCode c.actives with
                | .error e => .error e
                | .ok () =>
                  if acct.balance < c.fee st then
                    .error "insufficient balance to set account permission"
                  else .ok { ctx with contract_fee := c.fee st }

/-- The permission normalization of execute (lines 125-155): replace
`owner_permission` from the supplied owner descriptor and
`active_permissions` from the supplied actives, order-preserving. -/
def normalizeKeys (keys : List PermissionKey) : List PermissionKey :=
  keys.map fun k => { address := k.address, weight := k.weight }

/-- One entry of the `active_permissions` replacement (lines 142-154). -/
def normalizeActive (p : Permission) : ActivePermission :=
  { threshold := p.threshold, keys := normalizeKeys p.keys,
    operations := p.operations, permission_name := p.name }

def applyPermissions (c : AccountPermissionUpdateContract) (acct : Account) : Account :=
  let acct1 :=
    match c.owner with
    | some owner_perm =>
      let newOwner : OwnerPermission :=
        { threshold := owner_perm.threshold, keys := normalizeKeys owner_perm.keys }
      { acct with owner_permission := some newOwner }
    | none => acct
  { acct1 with active_permissions := c.actives.map normalizeActive }

/-- The witness step of execute (lines 157-165): when a witness permission is
supplied, `must_get` the record and set `signature_key := keys[0].address`. -/
def witnessStep (c : AccountPermissionUpdateContract) (st : State)
    (owner_address : Bytes) : Except ExecErr (List (Bytes × WitnessRecord)) :=
  match c.witness with
  | none => .ok st.witnesses
  | some wit_perm =>
    match lookupAssoc st.witnesses owner_address with
    | none => .error (.assertionFailure "must_get witness")
    | some wit =>
      match wit_perm.keys with
      | [] => .error (.assertionFailure "index out of bounds: keys[0]")
      | k0 :: _ =>
        .ok (updateAssoc st.witnesses owner_address ({ wit with signature_key := k0.address }))

/-- `AccountPermissionUpdateContract::execute` (lines 120-177). -/
def AccountPermissionUpdateContract.execute (c : AccountPermissionUpdateContract)
    (st : State) (ctx : TransactionContext) : Except ExecErr (TransactionResult × State) :=
  match addressParse c.owner_address with
  | none => .error (.assertionFailure "invalid owner_address")
  | some owner_address =>
    match lookupAssoc st.accounts owner_address with
    | none => .error (.assertionFailure "must_get account")
    | some owner_acct =>
      let owner_acct := applyPermissions c owner_acct
      match witnessStep c st owner_address with
      | .error e => .error e
      | .ok witnesses1 =>
        if ctx.contract_fee ≠ 0 then
          match adjust_balance owner_acct (-ctx.contract_fee) with
          | none => .error (.assertionFailure "adjust_balance underflow")
          | some owner_acct2 =>
            let st1 := add_to_blackhole ({ st with witnesses := witnesses1 }) ctx.contract_fee
            .ok (.success,
              { st1 with accounts := updateAssoc st1.accounts owner_address owner_acct2 })
        else
          let st1 := { st with witnesses := witnesses1 }
          .ok (.success,
            { st1 with accounts := updateAssoc st1.accounts owner_address owner_acct })

/-- The contract variants handled by the account actuators. -/
inductive ContractVariant
  | accountUpdate : AccountUpdateContract → ContractVariant
  | accountPermissionUpdate : AccountPermissionUpdateContract → ContractVariant
deriving DecidableEq

/-- Modelled from the spec: `Manager::process_contract` is not in the sources;
the spec says it dispatches on the contract variant, calling `validate` then,
on success, `execute` on the matching actuator. -/
def process_contract (definedCode : Nat → Bool) (cv : ContractVariant) (st : State)
    (ctx : TransactionContext) : State × Except String TransactionResult :=
  match cv with
  | .accountUpdate c =>
    match c.validate st ctx with
    | .error e => (st, .error e)
    | .ok ctx1 =>
      match c.execute st ctx1 with
      | .error (.assertionFailure e) => (st, .error e)
      | .ok (r, st1) => (st1, .ok r)
  | .accountPermissionUpdate c =>
    match AccountPermissionUpdateContract.validate definedCode c st ctx with
    | .error e => (st, .error e)
    | .ok ctx1 =>
      match c.execute st ctx1 with
      | .error (.assertionFailure e) => (st, .error e)
      | .ok (r, st1) => (st1, .ok r)

/-- The sum of the balances of one account family. -/
def sumBalances (l : List (Bytes × Account)) : Int :=
  (l.map fun kv => kv.2.balance).sum

/-- The per-address balance view of one account family. -/
def balancesOf (l : List (Bytes × Account)) : List (Bytes × Int) :=
  l.map fun kv => (kv.1, kv.2.balance)

/-! ## Concrete instances used to exercise the definitions -/

/-- A well-formed 21-byte address. -/
def exAddrA : Bytes := List.replicate 21 65

/-- A second well-formed 21-byte address. -/
def exAddrB : Bytes := List.replicate 21 66

/-- A malformed address (3 bytes). -/
def exAddrBad : Bytes := [1, 2, 3]

/-- A contract-type table in which every code is defined. -/
def dcAll : Nat → Bool := fun _ => true

/-- A valid owner/witness-type permission: one key of weight 1, threshold 1. -/
def exOwnerPerm : Permission :=
  { threshold := 1, name := [], parent_id := 0, operations := [], keys := [⟨exAddrA, 1⟩] }

/-- A valid active-type permission: all-zero 256-bit operations mask. -/
def exActivePerm : Permission :=
  { threshold := 1, name := [], parent_id := 0, operations := List.replicate 32 0,
    keys := [⟨exAddrA, 1⟩] }

/-- An invalid permission: zero threshold. -/
def exBadThresholdPerm : Permission :=
  { threshold := 0, name := [], parent_id := 0, operations := [], keys := [⟨exAddrA, 1⟩] }

/-- An invalid permission: no keys. -/
def exNoKeysPerm : Permission :=
  { threshold := 1, name := [], parent_id := 0, operations := [], keys := [] }

/-- A permission whose first key has weight 0 and whose second key has a
malformed address (for the rule-6/rule-7 ordering claim). -/
def exWeightThenAddrPerm : Permission :=
  { threshold := 1, name := [], parent_id := 0, operations := [],
    keys := [⟨exAddrA, 0⟩, ⟨exAddrBad, 1⟩] }

/-- A permission whose first key is valid and whose second key has a
malformed address. -/
def exGoodThenBadAddrPerm : Permission :=
  { threshold := 1, name := [], parent_id := 0, operations := [],
    keys := [⟨exAddrA, 1⟩, ⟨exAddrBad, 1⟩] }

/-- An account with empty name and a comfortable balance. -/
def exAccountA : Account :=
  { name := [], balance := 1000000000, owner_permission := some ⟨1, [⟨exAddrA, 1⟩]⟩,
    active_permissions := [], extraData := 3 }

/-- A witness record for `exAddrA`. -/
def exWitnessRec : WitnessRecord := { signature_key := exAddrA, extraData := 7 }

/-- A state holding only `exAddrA`'s account, with multisig allowed. -/
def exState : State :=
  { accounts := [(exAddrA, exAccountA)], witnesses := [],
    allowUpdateAccountName := 1, allowMultisig := 1,
    accountPermissionUpdateFee := 100, blackholeBalance := 5 }

/-- `exState` with a witness record for `exAddrA`. -/
def exStateWitness : State :=
  { exState with witnesses := [(exAddrA, exWitnessRec)] }

/-- `exState` under the legacy name gate (`AllowUpdateAccountName = 0`). -/
def exStateLegacyName : State :=
  { exState with allowUpdateAccountName := 0 }

/-- `exState` with multisig disabled. -/
def exStateNoMultisig : State :=
  { exState with allowMultisig := 0 }

/-- A permission-update contract whose owner and witness descriptors are both
invalid, with different diagnostics (for the check-order claim). -/
def exOrderContract : AccountPermissionUpdateContract :=
  { owner_address := exAddrA, owner := some exBadThresholdPerm,
    witness := some exNoKeysPerm, actives := [exActivePerm] }

/-- A well-formed permission-update contract without a witness permission. -/
def exGoodContract : AccountPermissionUpdateContract :=
  { owner_address := exAddrA, owner := some exOwnerPerm,
    witness := none, actives := [exActivePerm] }

/-- A well-formed permission-update contract with a witness permission. -/
def exGoodWitnessContract : AccountPermissionUpdateContract :=
  { owner_address := exAddrA, owner := some exOwnerPerm,
    witness := some exOwnerPerm, actives := [exActivePerm] }

/-- A name-update contract requesting the empty name (for the
name-uniqueness claim). -/
def exEmptyNameContract : AccountUpdateContract :=
  { owner_address := exAddrA, account_name := [] }

/-- The owner account of `exState` after one `exGoodContract` execution with
fee 100. -/
def exAccountAfter : Account :=
  { name := [], balance := 999999900, owner_permission := some ⟨1, [⟨exAddrA, 1⟩]⟩,
    active_permissions := [normalizeActive exActivePerm], extraData := 3 }

/-- `exState` after one `exGoodContract` execution with fee 100. -/
def exStateAfter : State :=
  { accounts := [(exAddrA, exAccountAfter)], witnesses := [], allowUpdateAccountName := 1,
    allowMultisig := 1, accountPermissionUpdateFee := 100, blackholeBalance := 105 }

/-- The owner account after a second `exGoodContract` execution. -/
def exAccountAfter2 : Account := { exAccountAfter with balance := 999999800 }

/-- `exStateAfter` after a second `exGoodContract` execution. -/
def exStateAfter2 : State :=
  { exStateAfter with accounts := [(exAddrA, exAccountAfter2)], blackholeBalance := 205 }

/-! ## Helper lemmas -/

theorem lookupAssoc_updateAssoc_self {α : Type} (l : List (Bytes × α)) (a : Bytes) (v : α) :
    lookupAssoc (updateAssoc l a v) a = some v := by
  induction l with
  | nil => simp [lookupAssoc, updateAssoc]
  | cons kv rest ih =>
    obtain ⟨b, w⟩ := kv
    by_cases hba : b = a
    · simp [lookupAssoc, updateAssoc, hba]
    · simp [lookupAssoc, updateAssoc, hba, ih]

theorem lookupAssoc_updateAssoc_ne {α : Type} (l : List (Bytes × α)) (a b : Bytes) (v : α)
    (h : a ≠ b) : lookupAssoc (updateAssoc l a v) b = lookupAssoc l b := by
  induction l with
  | nil => simp [lookupAssoc, updateAssoc, h]
  | cons kv rest ih =>
    obtain ⟨c, w⟩ := kv
    by_cases hca : c = a
    · subst hca
      simp [lookupAssoc, updateAssoc, h]
    · simp [lookupAssoc, updateAssoc, hca, ih]

theorem sumBalances_updateAssoc (l : List (Bytes × Account)) (a : Bytes) (v w : Account)
    (h : lookupAssoc l a = some v) :
    sumBalances (updateAssoc l a w) = sumBalances l - v.balance + w.balance := by
  induction l with
  | nil => simp [lookupAssoc] at h
  | cons kv rest ih =>
    obtain ⟨b, u⟩ := kv
    by_cases hba : b = a
    · simp only [lookupAssoc, if_pos hba] at h
      obtain rfl : u = v := by injection h
      simp [updateAssoc, if_pos hba, sumBalances]
      ring
    · simp only [lookupAssoc, if_neg hba] at h
      have hrec := ih h
      simp only [sumBalances] at hrec ⊢
      simp only [updateAssoc, if_neg hba, List.map_cons, List.sum_cons, hrec]
      ring

theorem balancesOf_updateAssoc_same (l : List (Bytes × Account)) (a : Bytes) (v w : Account)
    (h : lookupAssoc l a = some v) (hb : w.balance = v.balance) :
    balancesOf (updateAssoc l a w) = balancesOf l := by
  induction l with
  | nil => simp [lookupAssoc] at h
  | cons kv rest ih =>
    obtain ⟨b, u⟩ := kv
    by_cases hba : b = a
    · simp only [lookupAssoc, if_pos hba] at h
      obtain rfl : u = v := by injection h
      simp [updateAssoc, if_pos hba, balancesOf, hb, hba]
    · simp only [lookupAssoc, if_neg hba] at h
      have hrec := ih h
      simp only [balancesOf] at hrec ⊢
      simp only [updateAssoc, if_neg hba, List.map_cons, hrec]

theorem find_foldl_isSome (l : List (Bytes × Account)) (n : Bytes) (init : Option Account) :
    (l.foldl (fun found kv => if kv.2.name = n then some kv.2 else found) init).isSome
      ↔ init.isSome ∨ ∃ kv ∈ l, kv.2.name = n := by
  induction l generalizing init with
  | nil => simp
  | cons kv rest ih =>
    simp only [List.foldl_cons, List.mem_cons]
    by_cases hname : kv.2.name = n
    · rw [if_pos hname, ih]
      simp only [Option.isSome_some, true_or]
      constructor
      · intro _
        exact Or.inr ⟨kv, Or.inl rfl, hname⟩
      · intro _
        trivial
    · rw [if_neg hname, ih]
      constructor
      · rintro (h | ⟨x, hx, hxn⟩)
        · exact Or.inl h
        · exact Or.inr ⟨x, Or.inr hx, hxn⟩
      · rintro (h | ⟨x, hx | hx, hxn⟩)
        · exact Or.inl h
        · subst hx
          exact absurd hxn hname
        · exact Or.inr ⟨x, hx, hxn⟩

theorem find_account_by_name_isSome_iff (st : State) (n : Bytes) :
    (find_account_by_name st n).isSome ↔ ∃ kv ∈ st.accounts, kv.2.name = n := by
  unfold find_account_by_name
  rw [find_foldl_isSome]
  simp

theorem checkKeysLoop_ok_inv (keys : List PermissionKey) (ws : Int) (addrs : List Bytes)
    (s : Int) (ad : List Bytes) (h : checkKeysLoop keys ws addrs = .ok (s, ad)) :
    (∀ k ∈ keys, 0 < k.weight) ∧ s = ws + (keys.map fun k => k.weight).sum ∧
    (∀ k ∈ keys, k.address ∉ addrs) ∧ (keys.map fun k => k.address).Nodup := by
  induction keys generalizing ws addrs with
  | nil =>
    simp only [checkKeysLoop, Except.ok.injEq, Prod.mk.injEq] at h
    simp [h.1]
  | cons key rest ih =>
    simp only [checkKeysLoop] at h
    split at h
    · exact absurd h (by simp)
    · split at h
      · exact absurd h (by simp)
      · split at h
        · exact absurd h (by simp)
        · split at h
          · exact absurd h (by simp)
          · rename_i hw hmem
            obtain ⟨hpos, hsum, hnotin, hnodup⟩ := ih (ws + key.weight) (addrs ++ [key.address]) h
            refine ⟨?_, ?_, ?_, ?_⟩
            · intro k hk
              rcases List.mem_cons.mp hk with rfl | hk'
              · omega
              · exact hpos k hk'
            · simp only [List.map_cons, List.sum_cons]
              omega
            · intro k hk
              rcases List.mem_cons.mp hk with rfl | hk'
              · exact hmem
              · intro hcontra
                exact hnotin k hk' (by simp [hcontra])
            · simp only [List.map_cons, List.nodup_cons]
              refine ⟨?_, hnodup⟩
              intro hcontra
              obtain ⟨k, hk, hkaddr⟩ := List.mem_map.mp hcontra
              exact hnotin k hk (by simp [hkaddr])

theorem checkKeysLoop_append (pre post : List PermissionKey) (ws : Int) (addrs : List Bytes) :
    checkKeysLoop (pre ++ post) ws addrs =
      match checkKeysLoop pre ws addrs with
      | .error e => .error e
      | .ok (ws1, addrs1) => checkKeysLoop post ws1 addrs1 := by
  induction pre generalizing ws addrs with
  | nil => simp [checkKeysLoop]
  | cons key rest ih =>
    simp only [List.cons_append, checkKeysLoop]
    split
    · rfl
    · split
      · rfl
      · split
        · rfl
        · split
          · rfl
          · exact ih (ws + key.weight) (addrs ++ [key.address])

theorem checkOpsLoop_ok_iff (dc : Nat → Bool) (ops : Bytes) (i n : Nat) :
    checkOpsLoop dc ops i n = .ok () ↔
      ∀ j, i ≤ j → j < i + n → opBit ops j ≠ 0 → dc j = true := by
  induction n generalizing i with
  | zero =>
    simp only [checkOpsLoop, true_iff]
    intro j h1 h2
    omega
  | succ n ih =>
    simp only [checkOpsLoop]
    split
    · rename_i hcond
      obtain ⟨hbit, hdc⟩ := hcond
      constructor
      · intro h
        exact Except.noConfusion h
      · intro hall
        have := hall i le_rfl (by omega) hbit
        rw [this] at hdc
        exact Bool.noConfusion hdc
    · rename_i hcond
      rw [ih]
      have hi : opBit ops i ≠ 0 → dc i = true := by
        intro hbit
        by_contra hfalse
        exact hcond ⟨hbit, Bool.eq_false_iff.mpr hfalse⟩
      constructor
      · intro hall j h1 h2 hbit
        rcases Nat.eq_or_lt_of_le h1 with rfl | hlt
        · exact hi hbit
        · exact hall j hlt (by omega) hbit
      · intro hall j h1 h2 hbit
        exact hall j (by omega) (by omega) hbit

theorem checkOpsLoop_error_at (dc : Nat → Bool) (ops : Bytes) (i n k : Nat)
    (hik : i ≤ k) (hkn : k < i + n) (hbit : opBit ops k ≠ 0) (hdc : dc k = false)
    (hmin : ∀ j, i ≤ j → j < k → opBit ops j ≠ 0 → dc j = true) :
    checkOpsLoop dc ops i n = .error ("operation of " ++ toString k ++ " is undefined") := by
  induction n generalizing i with
  | zero => omega
  | succ n ih =>
    simp only [checkOpsLoop]
    rcases Nat.eq_or_lt_of_le hik with rfl | hlt
    · rw [if_pos ⟨hbit, hdc⟩]
    · have hi : ¬(opBit ops i ≠ 0 ∧ dc i = false) := by
        rintro ⟨hbiti, hdci⟩
        have := hmin i le_rfl hlt hbiti
        rw [this] at hdci
        exact Bool.noConfusion hdci
      rw [if_neg hi]
      exact ih (i + 1) hlt (by omega) (fun j h1 h2 => hmin j (by omega) h2)

theorem check_permission_ok_keys_ne_nil (dc : Nat → Bool) (p : Permission)
    (t : PermissionType) (h : check_permission dc p t = .ok ()) : p.keys ≠ [] := by
  intro hnil
  unfold check_permission at h
  rw [hnil] at h
  simp only [List.length_nil, List.isEmpty_nil, if_true] at h
  split at h
  · exact Except.noConfusion h
  · exact Except.noConfusion h

theorem check_permission_ok_inv (dc : Nat → Bool) (p : Permission) (t : PermissionType)
    (h : check_permission dc p t = .ok ()) :
    ∃ s ad, checkKeysLoop p.keys 0 [] = .ok (s, ad) ∧ p.threshold ≤ s ∧ 0 < p.threshold := by
  unfold check_permission at h
  split at h
  · exact Except.noConfusion h
  split at h
  · exact Except.noConfusion h
  split at h
  · exact Except.noConfusion h
  split at h
  · exact Except.noConfusion h
  split at h
  · exact Except.noConfusion h
  rename_i hthr _ _
  split at h
  · exact Except.noConfusion h
  rename_i s ad hloop
  split at h
  · exact Except.noConfusion h
  rename_i hsum
  exact ⟨s, ad, hloop, by omega, by omega⟩

theorem checkActives_append_error (dc : Nat → Bool) (pre post : List Permission)
    (p : Permission) (e : String)
    (hpre : ∀ q ∈ pre, check_permission dc q .Active = .ok ())
    (hp : check_permission dc p .Active = .error e) :
    checkActives dc (pre ++ p :: post) = .error e := by
  induction pre with
  | nil => simp [checkActives, hp]
  | cons q rest ih =>
    have hq : check_permission dc q .Active = .ok () := hpre q (List.mem_cons_self q rest)
    simp only [List.cons_append, checkActives, hq]
    exact ih fun r hr => hpre r (List.mem_cons_of_mem q hr)

theorem check_permission_reduce (dc : Nat → Bool) (p : Permission) (t : PermissionType)
    (s : Int) (ad : List Bytes)
    (h1 : p.keys.length ≤ MAX_NUM_OF_KEYS_IN_PERMISSION) (h2 : p.keys ≠ [])
    (h3 : 0 < p.threshold) (h4 : p.name.length ≤ 32) (h5 : p.parent_id = 0)
    (h6 : checkKeysLoop p.keys 0 [] = .ok (s, ad)) (h7 : p.threshold ≤ s) :
    check_permission dc p t =
      match t with
      | .Owner | .Witness =>
        if p.operations.isEmpty = false then .error "no operations vec needed" else .ok ()
      | .Active =>
        if p.operations.isEmpty ∨ p.operations.length ≠ 32 then
          .error "operations vec length must be 32"
        else checkOpsLoop dc p.operations 0 256 := by
  have hne : p.keys.isEmpty = false := by
    cases hk : p.keys with
    | nil => exact absurd hk h2
    | cons a l => simp [List.isEmpty]
  unfold check_permission
  rw [if_neg (Nat.not_lt.mpr h1), hne, if_neg (by simp), if_neg (not_le.mpr h3),
    if_neg (Nat.not_lt.mpr h4), if_neg (not_not_intro h5), h6]
  simp only [if_neg (not_lt.mpr h7)]

theorem check_permission_active_ops (dc : Nat → Bool) (p : Permission)
    (s : Int) (ad : List Bytes)
    (h1 : p.keys.length ≤ MAX_NUM_OF_KEYS_IN_PERMISSION) (h2 : p.keys ≠ [])
    (h3 : 0 < p.threshold) (h4 : p.name.length ≤ 32) (h5 : p.parent_id = 0)
    (h6 : checkKeysLoop p.keys 0 [] = .ok (s, ad)) (h7 : p.threshold ≤ s)
    (h8 : p.operations.length = 32) :
    check_permission dc p .Active = checkOpsLoop dc p.operations 0 256 := by
  have hne : p.operations.isEmpty = false := by
    cases hop : p.operations with
    | nil => rw [hop] at h8; exact absurd h8 (by simp)
    | cons a l => simp [List.isEmpty]
  rw [check_permission_reduce dc p .Active s ad h1 h2 h3 h4 h5 h6 h7]
  simp only [hne, h8]
  rw [if_neg (by simp)]

theorem witnessBlock_ok_inv (dc : Nat → Bool) (c : AccountPermissionUpdateContract) (b : Bool)
    (h : witnessBlock dc c b = .ok ()) :
    (b = true → ∃ w, c.witness = some w ∧ check_permission dc w .Witness = .ok ()) ∧
    (b = false → c.witness = none) := by
  unfold witnessBlock at h
  cases b with
  | true =>
    simp only [if_true] at h
    cases hw : c.witness with
    | none =>
      rw [hw] at h
      exact Except.noConfusion h
    | some w =>
      rw [hw] at h
      exact ⟨fun _ => ⟨w, rfl, h⟩, fun hfalse => Bool.noConfusion hfalse⟩
  | false =>
    simp only [Bool.false_eq_true, if_false] at h
    split at h
    · exact Except.noConfusion h
    · rename_i hsome
      refine ⟨fun htrue => Bool.noConfusion htrue, fun _ => ?_⟩
      exact Option.not_isSome_iff_eq_none.mp (by simpa using hsome)

theorem APU_validate_reduce (dc : Nat → Bool) (c : AccountPermissionUpdateContract)
    (st : State) (ctx : TransactionContext) (addr : Bytes) (acct : Account) (op : Permission)
    (hm : st.allowMultisig ≠ 0)
    (hp : addressParse c.owner_address = some addr)
    (ha : lookupAssoc st.accounts addr = some acct)
    (ho : c.owner = some op) :
    AccountPermissionUpdateContract.validate dc c st ctx =
      match witnessBlock dc c (lookupAssoc st.witnesses addr).isSome with
      | .error e => .error e
      | .ok () =>
        if c.actives.isEmpty then .error "missing active permissions"
        else if c.actives.length > MAX_NUM_OF_ACTIVE_PERMISSIONS then
          .error "too many active permissions"
        else
          match check_permission dc op .Owner with
          | .error e => .error e
          | .ok () =>
            match checkActives dc c.actives with
            | .error e => .error e
            | .ok () =>
              if acct.balance < c.fee st then
                .error "insufficient balance to set account permission"
              else .ok { ctx with contract_fee := c.fee st } := by
  unfold AccountPermissionUpdateContract.validate
  rw [if_neg hm]
  simp only [hp, ha, ho]

theorem APU_validate_ok_inv (dc : Nat → Bool) (c : AccountPermissionUpdateContract)
    (st : State) (ctx ctx' : TransactionContext)
    (h : AccountPermissionUpdateContract.validate dc c st ctx = .ok ctx') :
    ∃ addr acct op, addressParse c.owner_address = some addr ∧
      lookupAssoc st.accounts addr = some acct ∧ c.owner = some op ∧
      witnessBlock dc c (lookupAssoc st.witnesses addr).isSome = .ok () ∧
      check_permission dc op .Owner = .ok () ∧
      checkActives dc c.actives = .ok () ∧
      c.fee st ≤ acct.balance ∧
      ctx' = { ctx with contract_fee := c.fee st } := by
  unfold AccountPermissionUpdateContract.validate at h
  split at h
  · exact Except.noConfusion h
  split at h
  · exact Except.noConfusion h
  rename_i addr _
  split at h
  · exact Except.noConfusion h
  rename_i acct ha
  split at h
  · exact Except.noConfusion h
  rename_i op ho
  split at h
  · exact Except.noConfusion h
  rename_i hwb
  split at h
  · exact Except.noConfusion h
  split at h
  · exact Except.noConfusion h
  split at h
  · exact Except.noConfusion h
  rename_i hop
  split at h
  · exact Except.noConfusion h
  rename_i hacts
  split at h
  · exact Except.noConfusion h
  rename_i hbal
  refine ⟨addr, acct, op, by assumption, ha, ho, hwb, hop, hacts, by omega, ?_⟩
  injection h with h
  exact h.symm

theorem isEmpty_false_of_ne_nil {α : Type} (l : List α) (h : l ≠ []) : l.isEmpty = false := by
  cases l with
  | nil => exact absurd rfl h
  | cons a t => rfl

theorem applyPermissions_balance (c : AccountPermissionUpdateContract) (a : Account) :
    (applyPermissions c a).balance = a.balance := by
  unfold applyPermissions
  cases c.owner <;> rfl

theorem applyPermissions_name (c : AccountPermissionUpdateContract) (a : Account) :
    (applyPermissions c a).name = a.name := by
  unfold applyPermissions
  cases c.owner <;> rfl

theorem applyPermissions_extraData (c : AccountPermissionUpdateContract) (a : Account) :
    (applyPermissions c a).extraData = a.extraData := by
  unfold applyPermissions
  cases c.owner <;> rfl

theorem applyPermissions_of_owner_some (c : AccountPermissionUpdateContract) (a : Account)
    (op : Permission) (ho : c.owner = some op) :
    applyPermissions c a =
      { a with owner_permission := some ⟨op.threshold, normalizeKeys op.keys⟩, active_permissions := c.actives.map normalizeActive } := by
  unfold applyPermissions
  rw [ho]

theorem witnessStep_ok_char (c : AccountPermissionUpdateContract) (st : State) (addr : Bytes)
    (w1 : List (Bytes × WitnessRecord)) (h : witnessStep c st addr = .ok w1) :
    (c.witness = none ∧ w1 = st.witnesses) ∨
    (∃ w wit k0 rest, c.witness = some w ∧ lookupAssoc st.witnesses addr = some wit ∧
      w.keys = k0 :: rest ∧
      w1 = updateAssoc st.witnesses addr ({ wit with signature_key := k0.address })) := by
  unfold witnessStep at h
  cases hw : c.witness with
  | none =>
    simp only [hw] at h
    injection h with h
    exact Or.inl ⟨rfl, h.symm⟩
  | some w =>
    simp only [hw] at h
    cases hwit : lookupAssoc st.witnesses addr with
    | none =>
      simp only [hwit] at h
      exact Except.noConfusion h
    | some wit =>
      simp only [hwit] at h
      cases hk : w.keys with
      | nil =>
        simp only [hk] at h
        exact Except.noConfusion h
      | cons k0 rest =>
        simp only [hk] at h
        injection h with h
        exact Or.inr ⟨w, wit, k0, rest, rfl, rfl, hk, h.symm⟩

theorem APU_execute_ok_char (c : AccountPermissionUpdateContract) (st : State)
    (ctx : TransactionContext) (r : TransactionResult) (st' : State)
    (addr : Bytes) (acct : Account)
    (hp : addressParse c.owner_address = some addr)
    (ha : lookupAssoc st.accounts addr = some acct)
    (hx : AccountPermissionUpdateContract.execute c st ctx = .ok (r, st')) :
    ∃ witnesses1, witnessStep c st addr = .ok witnesses1 ∧
      ((ctx.contract_fee ≠ 0 ∧
        ∃ acct2, adjust_balance (applyPermissions c acct) (-ctx.contract_fee) = some acct2 ∧
          st' = { st with witnesses := witnesses1, blackholeBalance := st.blackholeBalance + ctx.contract_fee, accounts := updateAssoc st.accounts addr acct2 }) ∨
       (ctx.contract_fee = 0 ∧
        st' = { st with witnesses := witnesses1, accounts := updateAssoc st.accounts addr (applyPermissions c acct) })) := by
  unfold AccountPermissionUpdateContract.execute at hx
  simp only [hp, ha] at hx
  cases hws : witnessStep c st addr with
  | error e =>
    rw [hws] at hx
    exact Except.noConfusion hx
  | ok witnesses1 =>
    simp only [hws] at hx
    refine ⟨witnesses1, rfl, ?_⟩
    by_cases hf : ctx.contract_fee = 0
    · rw [if_neg (not_not_intro hf)] at hx
      injection hx with hx
      injection hx with hx1 hx2
      exact Or.inr ⟨hf, hx2.symm⟩
    · rw [if_pos hf] at hx
      cases hadj : adjust_balance (applyPermissions c acct) (-ctx.contract_fee) with
      | none =>
        rw [hadj] at hx
        exact Except.noConfusion hx
      | some acct2 =>
        rw [hadj] at hx
        injection hx with hx
        injection hx with hx1 hx2
        simp only [add_to_blackhole] at hx2
        exact Or.inl ⟨hf, acct2, rfl, hx2.symm⟩

theorem AU_validate_reduce (c : AccountUpdateContract) (st : State) (ctx : TransactionContext)
    (addr : Bytes) (acct : Account)
    (hlen : c.account_name.length ≤ 200)
    (hp : addressParse c.owner_address = some addr)
    (ha : lookupAssoc st.accounts addr = some acct)
    (hname : acct.name = [])
    (hallow : st.allowUpdateAccountName = 0) :
    AccountUpdateContract.validate c st ctx =
      if (find_account_by_name st c.account_name).isSome then
        .error "the same account name already exists"
      else .ok ctx := by
  unfold AccountUpdateContract.validate
  rw [if_neg (Nat.not_lt.mpr hlen)]
  simp only [hp, ha, hname, hallow]
  rw [if_neg (by simp)]
  simp

theorem lookupAssoc_eq_of_mem_nodup {α : Type} (l : List (Bytes × α)) (kv : Bytes × α)
    (hmem : kv ∈ l) (hnd : (l.map Prod.fst).Nodup) : lookupAssoc l kv.1 = some kv.2 := by
  induction l with
  | nil => cases hmem
  | cons hd tl ih =>
    obtain ⟨b, v⟩ := hd
    simp only [List.map_cons, List.nodup_cons] at hnd
    rcases List.mem_cons.mp hmem with rfl | hmem'
    · simp [lookupAssoc]
    · have hne : b ≠ kv.1 := by
        intro hcontra
        exact hnd.1 (hcontra ▸ List.mem_map_of_mem Prod.fst hmem')
      simp [lookupAssoc, hne, ih hmem' hnd.2]

/-! ## Claim theorems -/

/-- C1 counterexample: with the account existing, the owner permission
present, a witness record present and a witness permission supplied, one
active permission, and both the owner and the witness descriptors invalid
with distinct diagnostics, `validate` returns the witness descriptor's
diagnostic, not the owner's as the claimed owner-actives-witness order would
give. -/
theorem C1_counterexample :
    AccountPermissionUpdateContract.validate dcAll exOrderContract exStateWitness ⟨0⟩
        = .error "no permission key provided" ∧
    check_permission dcAll exBadThresholdPerm .Owner
        = .error "permission threshold should be greater than 0" ∧
    exOrderContract.owner = some exBadThresholdPerm ∧
    exOrderContract.witness = some exNoKeysPerm ∧
    (lookupAssoc exStateWitness.accounts exAddrA).isSome = true ∧
    (lookupAssoc exStateWitness.witnesses exAddrA).isSome = true ∧
    exOrderContract.actives.length = 1 :=
  ⟨rfl, rfl, rfl, rfl, rfl, rfl, rfl⟩

/-- C1 (amended): under the structural prerequisites, `validate` runs
`check_permission` on the supplied witness permission (type Witness) first,
then on the owner permission (type Owner), then on each active permission
(type Active) in sequence order; the diagnostic returned is that of the first
invalid descriptor in this witness-owner-actives order. -/
theorem C1_amended_check_order (dc : Nat → Bool) (c : AccountPermissionUpdateContract)
    (st : State) (ctx : TransactionContext) (addr : Bytes) (acct : Account) (op : Permission)
    (hm : st.allowMultisig ≠ 0)
    (hp : addressParse c.owner_address = some addr)
    (ha : lookupAssoc st.accounts addr = some acct)
    (ho : c.owner = some op)
    (hane : c.actives ≠ [])
    (halen : c.actives.length ≤ MAX_NUM_OF_ACTIVE_PERMISSIONS) :
    (∀ w e, c.witness = some w → (lookupAssoc st.witnesses addr).isSome = true →
      check_permission dc w .Witness = .error e →
      AccountPermissionUpdateContract.validate dc c st ctx = .error e) ∧
    (∀ e, witnessBlock dc c (lookupAssoc st.witnesses addr).isSome = .ok () →
      check_permission dc op .Owner = .error e →
      AccountPermissionUpdateContract.validate dc c st ctx = .error e) ∧
    (∀ pre q post e, c.actives = pre ++ q :: post →
      witnessBlock dc c (lookupAssoc st.witnesses addr).isSome = .ok () →
      check_permission dc op .Owner = .ok () →
      (∀ x ∈ pre, check_permission dc x .Active = .ok ()) →
      check_permission dc q .Active = .error e →
      AccountPermissionUpdateContract.validate dc c st ctx = .error e) := by
  have hred := APU_validate_reduce dc c st ctx addr acct op hm hp ha ho
  have hae : c.actives.isEmpty = false := isEmpty_false_of_ne_nil _ hane
  have hlen : ¬ (MAX_NUM_OF_ACTIVE_PERMISSIONS < c.actives.length) := Nat.not_lt.mpr halen
  refine ⟨?_, ?_, ?_⟩
  · intro w e hw hwit hchk
    have hwb : witnessBlock dc c (lookupAssoc st.witnesses addr).isSome = .error e := by
      simp [witnessBlock, hwit, hw, hchk]
    rw [hred]
    simp only [hwb]
  · intro e hwb hchk
    rw [hred]
    simp [hwb, hae, hlen, hchk]
  · intro pre q post e hsplit hwb howner hpre hq
    have hacts : checkActives dc c.actives = .error e := by
      rw [hsplit]
      exact checkActives_append_error dc pre post q e hpre hq
    rw [hred]
    simp [hwb, hae, hlen, howner, hacts]

/-- Witness for the amended C1 at the concrete ordering inputs: the invalid
witness descriptor's diagnostic is the one returned. -/
theorem C1_amended_witness :
    AccountPermissionUpdateContract.validate dcAll exOrderContract exStateWitness ⟨0⟩
        = .error "no permission key provided" :=
  (C1_amended_check_order dcAll exOrderContract exStateWitness ⟨0⟩ exAddrA exAccountA
      exBadThresholdPerm (by decide) rfl rfl rfl (by decide) (by decide)).1
    exNoKeysPerm "no permission key provided" rfl rfl (by rfl)

/-- C2: any permission descriptor accepted by `check_permission` satisfies
the permission-algebra invariants: the key weights sum to at least the
threshold, the key addresses are pairwise distinct, every key weight is
strictly positive, and the threshold is strictly positive. -/
theorem C2_accepted_permission_invariants (dc : Nat → Bool) (p : Permission)
    (t : PermissionType) (h : check_permission dc p t = .ok ()) :
    p.threshold ≤ (p.keys.map fun k => k.weight).sum ∧
    (p.keys.map fun k => k.address).Nodup ∧
    (∀ k ∈ p.keys, 0 < k.weight) ∧ 0 < p.threshold := by
  obtain ⟨s, ad, hloop, hle, hpos⟩ := check_permission_ok_inv dc p t h
  obtain ⟨hw, hsum, _, hnodup⟩ := checkKeysLoop_ok_inv p.keys 0 [] s ad hloop
  subst hsum
  exact ⟨by linarith, hnodup, hw, hpos⟩

/-- Witness for C2 at a concrete accepted permission. -/
theorem C2_witness :
    exOwnerPerm.threshold ≤ (exOwnerPerm.keys.map fun k => k.weight).sum ∧
    (exOwnerPerm.keys.map fun k => k.address).Nodup ∧
    (∀ k ∈ exOwnerPerm.keys, 0 < k.weight) ∧ 0 < exOwnerPerm.threshold :=
  C2_accepted_permission_invariants dcAll exOwnerPerm .Owner (by rfl)

/-- C5: for an Active permission that passes the key, threshold, name,
parent_id and weight-sum rules and has a 32-byte operations field,
`check_permission` succeeds iff every set bit of the 256-bit mask names a
defined contract-type code; when a set bit at position `i` is undefined and
every earlier set bit is defined, the diagnostic is
"operation of {i} is undefined", positions being scanned in increasing order
over 0..256. -/
theorem C5_undefined_operation_bits (dc : Nat → Bool) (p : Permission)
    (s : Int) (ad : List Bytes)
    (h1 : p.keys.length ≤ MAX_NUM_OF_KEYS_IN_PERMISSION) (h2 : p.keys ≠ [])
    (h3 : 0 < p.threshold) (h4 : p.name.length ≤ 32) (h5 : p.parent_id = 0)
    (h6 : checkKeysLoop p.keys 0 [] = .ok (s, ad)) (h7 : p.threshold ≤ s)
    (h8 : p.operations.length = 32) :
    (check_permission dc p .Active = .ok () ↔
      ∀ i, i < 256 → opBit p.operations i ≠ 0 → dc i = true) ∧
    (∀ i, i < 256 → opBit p.operations i ≠ 0 → dc i = false →
      (∀ j, j < i → opBit p.operations j ≠ 0 → dc j = true) →
      check_permission dc p .Active
        = .error ("operation of " ++ toString i ++ " is undefined")) := by
  have hred := check_permission_active_ops dc p s ad h1 h2 h3 h4 h5 h6 h7 h8
  constructor
  · rw [hred, checkOpsLoop_ok_iff]
    constructor
    · intro hall i hi hbit
      exact hall i (Nat.zero_le i) (by omega) hbit
    · intro hall j _ hj hbit
      exact hall j (by omega) hbit
  · intro i hi hbit hdc hmin
    rw [hred]
    exact checkOpsLoop_error_at dc p.operations 0 256 i (Nat.zero_le i) (by omega) hbit hdc
      (fun j _ hji hb => hmin j hji hb)

/-- Witness for C5 at a concrete Active permission with an all-zero mask. -/
theorem C5_witness :
    (check_permission dcAll exActivePerm .Active = .ok () ↔
      ∀ i, i < 256 → opBit exActivePerm.operations i ≠ 0 → dcAll i = true) ∧
    (∀ i, i < 256 → opBit exActivePerm.operations i ≠ 0 → dcAll i = false →
      (∀ j, j < i → opBit exActivePerm.operations j ≠ 0 → dcAll j = true) →
      check_permission dcAll exActivePerm .Active
        = .error ("operation of " ++ toString i ++ " is undefined")) :=
  C5_undefined_operation_bits dcAll exActivePerm 1 [exAddrA] (by decide) (by decide)
    (by decide) (by decide) (by decide) (by rfl) (by decide) (by decide)

/-- C6 counterexample: a permission passing rules 1-5 in which the key at
index 0 has a valid address but weight 0 and the key at index 1 has a
malformed address; `check_permission` reports the weight diagnostic, not
"invalid key address" as the claimed rule-6-before-rule-7-across-all-keys
order would give. -/
theorem C6_counterexample :
    check_permission dcAll exWeightThenAddrPerm .Owner
        = .error "weight of key should be greater than 0" ∧
    exWeightThenAddrPerm.keys.length ≤ MAX_NUM_OF_KEYS_IN_PERMISSION ∧
    exWeightThenAddrPerm.keys ≠ [] ∧ 0 < exWeightThenAddrPerm.threshold ∧
    exWeightThenAddrPerm.name.length ≤ 32 ∧ exWeightThenAddrPerm.parent_id = 0 ∧
    (∃ k ∈ exWeightThenAddrPerm.keys, (addressParse k.address).isNone = true) := by
  refine ⟨rfl, by decide, by decide, by decide, by decide, by decide, by decide⟩

/-- C6 (amended): the address and weight checks run per key in key order;
when the key at some index has an unparseable address and every key before it
passes the whole per-key check (address, weight, overflow, duplicate), the
diagnostic is "invalid key address". -/
theorem C6_amended_per_key_order (dc : Nat → Bool) (p : Permission) (t : PermissionType)
    (pre post : List PermissionKey) (key : PermissionKey) (s : Int) (ad : List Bytes)
    (hsplit : p.keys = pre ++ key :: post)
    (h1 : p.keys.length ≤ MAX_NUM_OF_KEYS_IN_PERMISSION) (h2 : p.keys ≠ [])
    (h3 : 0 < p.threshold) (h4 : p.name.length ≤ 32) (h5 : p.parent_id = 0)
    (hpre : checkKeysLoop pre 0 [] = .ok (s, ad))
    (hbad : (addressParse key.address).isNone = true) :
    check_permission dc p t = .error "invalid key address" := by
  have hne : p.keys.isEmpty = false := isEmpty_false_of_ne_nil _ h2
  have hloop : checkKeysLoop p.keys 0 [] = .error "invalid key address" := by
    rw [hsplit, checkKeysLoop_append]
    simp only [hpre, checkKeysLoop]
    rw [if_pos hbad]
  unfold check_permission
  rw [if_neg (Nat.not_lt.mpr h1), hne, if_neg (by simp), if_neg (not_le.mpr h3),
    if_neg (Nat.not_lt.mpr h4), if_neg (not_not_intro h5)]
  simp only [hloop]

/-- Witness for the amended C6: a valid first key followed by a key with a
malformed address yields "invalid key address". -/
theorem C6_amended_witness :
    check_permission dcAll exGoodThenBadAddrPerm .Owner = .error "invalid key address" :=
  C6_amended_per_key_order dcAll exGoodThenBadAddrPerm .Owner
    [⟨exAddrA, 1⟩] [] ⟨exAddrBad, 1⟩ 1 [exAddrA] rfl (by decide) (by decide) (by decide)
    (by decide) (by decide) (by rfl) (by decide)

/-- C7 counterexample: under the legacy gate, with the owner the only account
and its name empty, requesting the empty name is rejected with "the same
account name already exists" although no account other than the owner holds
that name. -/
theorem C7_counterexample :
    AccountUpdateContract.validate exEmptyNameContract exStateLegacyName ⟨0⟩
        = .error "the same account name already exists" ∧
    exStateLegacyName.allowUpdateAccountName = 0 ∧
    exStateLegacyName.accounts = [(exAddrA, exAccountA)] ∧
    exAccountA.name = [] ∧ exEmptyNameContract.account_name = [] ∧
    exEmptyNameContract.owner_address = exAddrA ∧
    ¬ ∃ kv ∈ exStateLegacyName.accounts,
        kv.2.name = exEmptyNameContract.account_name ∧ kv.1 ≠ exAddrA := by
  refine ⟨rfl, rfl, rfl, rfl, rfl, rfl, by decide⟩

/-- C7 (amended): under `AllowUpdateAccountName = 0` with the owner account's
name empty, `validate` rejects with "the same account name already exists"
iff some account (possibly the owner itself) already holds the requested
name, and otherwise the check passes; when the requested name is non-empty
and the account keys are distinct, that condition coincides with some account
other than the owner holding the name. -/
theorem C7_amended_name_uniqueness (c : AccountUpdateContract) (st : State)
    (ctx : TransactionContext) (addr : Bytes) (acct : Account)
    (hlen : c.account_name.length ≤ 200)
    (hp : addressParse c.owner_address = some addr)
    (ha : lookupAssoc st.accounts addr = some acct)
    (hname : acct.name = [])
    (hallow : st.allowUpdateAccountName = 0) :
    (AccountUpdateContract.validate c st ctx = .error "the same account name already exists"
      ↔ ∃ kv ∈ st.accounts, kv.2.name = c.account_name) ∧
    (AccountUpdateContract.validate c st ctx = .ok ctx
      ↔ ¬ ∃ kv ∈ st.accounts, kv.2.name = c.account_name) ∧
    (c.account_name ≠ [] → (st.accounts.map Prod.fst).Nodup →
      ((∃ kv ∈ st.accounts, kv.2.name = c.account_name) ↔
       ∃ kv ∈ st.accounts, kv.2.name = c.account_name ∧ kv.1 ≠ addr)) := by
  have hred := AU_validate_reduce c st ctx addr acct hlen hp ha hname hallow
  have hfind := find_account_by_name_isSome_iff st c.account_name
  refine ⟨?_, ?_, ?_⟩
  · rw [hred]
    by_cases hex : ∃ kv ∈ st.accounts, kv.2.name = c.account_name
    · rw [if_pos (hfind.mpr hex)]
      simp [hex]
    · rw [if_neg (fun hcontra => hex (hfind.mp hcontra))]
      simp [hex]
  · rw [hred]
    by_cases hex : ∃ kv ∈ st.accounts, kv.2.name = c.account_name
    · rw [if_pos (hfind.mpr hex)]
      simp [hex]
    · rw [if_neg (fun hcontra => hex (hfind.mp hcontra))]
      simp [hex]
  · intro hnonempty hnd
    constructor
    · rintro ⟨kv, hmem, hkvname⟩
      refine ⟨kv, hmem, hkvname, ?_⟩
      intro hcontra
      have := lookupAssoc_eq_of_mem_nodup st.accounts kv hmem hnd
      rw [hcontra, ha] at this
      injection this with this
      rw [← this, hname] at hkvname
      exact hnonempty hkvname.symm
    · rintro ⟨kv, hmem, hkvname, _⟩
      exact ⟨kv, hmem, hkvname⟩

/-- Witness for the amended C7 at the concrete empty-name input, where the
scan finds the owner itself. -/
theorem C7_amended_witness :
    (AccountUpdateContract.validate exEmptyNameContract exStateLegacyName ⟨0⟩
        = .error "the same account name already exists"
      ↔ ∃ kv ∈ exStateLegacyName.accounts,
          kv.2.name = exEmptyNameContract.account_name) ∧
    (AccountUpdateContract.validate exEmptyNameContract exStateLegacyName ⟨0⟩ = .ok ⟨0⟩
      ↔ ¬ ∃ kv ∈ exStateLegacyName.accounts,
          kv.2.name = exEmptyNameContract.account_name) ∧
    (exEmptyNameContract.account_name ≠ [] →
      (exStateLegacyName.accounts.map Prod.fst).Nodup →
      ((∃ kv ∈ exStateLegacyName.accounts,
          kv.2.name = exEmptyNameContract.account_name) ↔
       ∃ kv ∈ exStateLegacyName.accounts,
          kv.2.name = exEmptyNameContract.account_name ∧ kv.1 ≠ exAddrA)) :=
  C7_amended_name_uniqueness exEmptyNameContract exStateLegacyName ⟨0⟩ exAddrA exAccountA
    (by decide) rfl rfl rfl rfl

/-- C8: with multisig enabled, the account existing and an owner permission
present, a witness record without a supplied witness permission is rejected
as "missing witness permission", and a supplied witness permission without a
witness record as "account is not a witness". -/
theorem C8_witness_field_consistency (dc : Nat → Bool)
    (c : AccountPermissionUpdateContract) (st : State) (ctx : TransactionContext)
    (addr : Bytes) (acct : Account) (op : Permission)
    (hm : st.allowMultisig ≠ 0)
    (hp : addressParse c.owner_address = some addr)
    (ha : lookupAssoc st.accounts addr = some acct)
    (ho : c.owner = some op) :
    ((lookupAssoc st.witnesses addr).isSome = true → c.witness = none →
      AccountPermissionUpdateContract.validate dc c st ctx
        = .error "missing witness permission") ∧
    ((lookupAssoc st.witnesses addr).isSome = false → c.witness.isSome = true →
      AccountPermissionUpdateContract.validate dc c st ctx
        = .error "account is not a witness") := by
  have hred := APU_validate_reduce dc c st ctx addr acct op hm hp ha ho
  constructor
  · intro hwit hnone
    have hwb : witnessBlock dc c (lookupAssoc st.witnesses addr).isSome
        = .error "missing witness permission" := by
      simp [witnessBlock, hwit, hnone]
    rw [hred]
    simp only [hwb]
  · intro hwit hsome
    have hwb : witnessBlock dc c (lookupAssoc st.witnesses addr).isSome
        = .error "account is not a witness" := by
      simp [witnessBlock, hwit, hsome]
    rw [hred]
    simp only [hwb]

/-- Witness for C8 at concrete inputs: a witness account without the witness
field, and a non-witness account with it. -/
theorem C8_witness :
    AccountPermissionUpdateContract.validate dcAll exGoodContract exStateWitness ⟨0⟩
        = .error "missing witness permission" ∧
    AccountPermissionUpdateContract.validate dcAll exGoodWitnessContract exState ⟨0⟩
        = .error "account is not a witness" :=
  ⟨(C8_witness_field_consistency dcAll exGoodContract exStateWitness ⟨0⟩ exAddrA exAccountA
      exOwnerPerm (by decide) rfl rfl rfl).1 rfl rfl,
   (C8_witness_field_consistency dcAll exGoodWitnessContract exState ⟨0⟩ exAddrA exAccountA
      exOwnerPerm (by decide) rfl rfl rfl).2 rfl rfl⟩

/-- C3: a contract rejected at `validate` leaves the state database
unchanged: `process_contract` returns the initial state on any validate
error. -/
theorem C3_validate_error_no_write (dc : Nat → Bool) (cv : ContractVariant) (st : State)
    (ctx : TransactionContext) (e : String)
    (h : match cv with
         | .accountUpdate c => c.validate st ctx = .error e
         | .accountPermissionUpdate c =>
             AccountPermissionUpdateContract.validate dc c st ctx = .error e) :
    (process_contract dc cv st ctx).1 = st := by
  cases cv with
  | accountUpdate c =>
    simp only at h
    simp [process_contract, h]
  | accountPermissionUpdate c =>
    simp only at h
    simp [process_contract, h]

/-- Witness for C3: a permission update rejected because multisig is
disabled leaves the state unchanged. -/
theorem C3_witness :
    (process_contract dcAll (.accountPermissionUpdate exGoodContract)
        exStateNoMultisig ⟨0⟩).1 = exStateNoMultisig :=
  C3_validate_error_no_write dcAll (.accountPermissionUpdate exGoodContract)
    exStateNoMultisig ⟨0⟩ "multisig is disabled on chain" (by rfl)

/-- C4: after a validate-then-execute pair, the total of account balances
plus the blackhole balance is conserved; with a positive fee the owner's
balance drops by exactly the fee and the blackhole gains exactly the fee;
with fee 0 no balance changes at all. -/
theorem C4_fee_conservation (dc : Nat → Bool) (c : AccountPermissionUpdateContract)
    (st : State) (ctx ctx' : TransactionContext) (r : TransactionResult) (st' : State)
    (hv : AccountPermissionUpdateContract.validate dc c st ctx = .ok ctx')
    (hx : AccountPermissionUpdateContract.execute c st ctx' = .ok (r, st')) :
    sumBalances st'.accounts + st'.blackholeBalance
        = sumBalances st.accounts + st.blackholeBalance ∧
    (0 < ctx'.contract_fee → ∃ addr acct acct2, addressParse c.owner_address = some addr ∧ lookupAssoc st.accounts addr = some acct ∧ lookupAssoc st'.accounts addr = some acct2 ∧ acct2.balance = acct.balance - ctx'.contract_fee ∧ st'.blackholeBalance = st.blackholeBalance + ctx'.contract_fee) ∧
    (ctx'.contract_fee = 0 → balancesOf st'.accounts = balancesOf st.accounts ∧ st'.blackholeBalance = st.blackholeBalance) := by
  obtain ⟨addr, acct, op, hp, ha, ho, hwb, hop, hacts, hfee, hctx⟩ :=
    APU_validate_ok_inv dc c st ctx ctx' hv
  obtain ⟨w1, hws, hbr⟩ := APU_execute_ok_char c st ctx' r st' addr acct hp ha hx
  rcases hbr with ⟨hfne, acct2, hadj, hst'⟩ | ⟨hf0, hst'⟩
  · have hbal2 : acct2.balance = acct.balance - ctx'.contract_fee := by
      unfold adjust_balance at hadj
      split at hadj
      · exact Option.noConfusion hadj
      · injection hadj with hadj
        rw [← hadj]
        show (applyPermissions c acct).balance + -ctx'.contract_fee
            = acct.balance - ctx'.contract_fee
        rw [applyPermissions_balance, sub_eq_add_neg]
    subst hst'
    refine ⟨?_, ?_, fun h0 => absurd h0 hfne⟩
    · show sumBalances (updateAssoc st.accounts addr acct2)
          + (st.blackholeBalance + ctx'.contract_fee)
          = sumBalances st.accounts + st.blackholeBalance
      rw [sumBalances_updateAssoc st.accounts addr acct acct2 ha, hbal2]
      ring
    · intro _
      exact ⟨addr, acct, acct2, hp, ha, lookupAssoc_updateAssoc_self _ _ _, hbal2, rfl⟩
  · subst hst'
    refine ⟨?_, fun hpos => absurd hf0 (ne_of_gt hpos), fun _ => ⟨?_, rfl⟩⟩
    · show sumBalances (updateAssoc st.accounts addr (applyPermissions c acct))
          + st.blackholeBalance
          = sumBalances st.accounts + st.blackholeBalance
      rw [sumBalances_updateAssoc st.accounts addr acct _ ha, applyPermissions_balance]
      ring
    · exact balancesOf_updateAssoc_same st.accounts addr acct _ ha
        (applyPermissions_balance c acct)

/-- Witness for C4 at a concrete execution with fee 100. -/
theorem C4_witness :
    sumBalances exStateAfter.accounts + exStateAfter.blackholeBalance
        = sumBalances exState.accounts + exState.blackholeBalance ∧
    (0 < (⟨100⟩ : TransactionContext).contract_fee → ∃ addr acct acct2, addressParse exGoodContract.owner_address = some addr ∧ lookupAssoc exState.accounts addr = some acct ∧ lookupAssoc exStateAfter.accounts addr = some acct2 ∧ acct2.balance = acct.balance - (⟨100⟩ : TransactionContext).contract_fee ∧ exStateAfter.blackholeBalance = exState.blackholeBalance + (⟨100⟩ : TransactionContext).contract_fee) ∧
    ((⟨100⟩ : TransactionContext).contract_fee = 0 → balancesOf exStateAfter.accounts = balancesOf exState.accounts ∧ exStateAfter.blackholeBalance = exState.blackholeBalance) :=
  C4_fee_conservation dcAll exGoodContract exState ⟨0⟩ ⟨100⟩ .success exStateAfter
    (by rfl) (by rfl)

/-- C9: if `validate` succeeded on a state and context, `execute` on that
same state reaches no precondition-failure branch: the address re-parses,
the `must_get`s find their records, `keys[0]` of the witness permission is in
bounds and the balance adjustment does not underflow, so execute returns a
success. -/
theorem C9_validate_implies_execute_succeeds (dc : Nat → Bool)
    (c : AccountPermissionUpdateContract) (st : State) (ctx ctx' : TransactionContext)
    (hv : AccountPermissionUpdateContract.validate dc c st ctx = .ok ctx') :
    ∃ r st', AccountPermissionUpdateContract.execute c st ctx' = .ok (r, st') := by
  obtain ⟨addr, acct, op, hp, ha, ho, hwb, hop, hacts, hfee, hctx⟩ :=
    APU_validate_ok_inv dc c st ctx ctx' hv
  obtain ⟨hwsome, hwnone⟩ := witnessBlock_ok_inv dc c _ hwb
  have hws : ∃ w1, witnessStep c st addr = .ok w1 := by
    cases hb : lookupAssoc st.witnesses addr with
    | none =>
      have hcw : c.witness = none := hwnone (by simp [hb])
      exact ⟨st.witnesses, by simp [witnessStep, hcw]⟩
    | some wit =>
      obtain ⟨w, hw, hchk⟩ := hwsome (by simp [hb])
      cases hk : w.keys with
      | nil => exact absurd hk (check_permission_ok_keys_ne_nil dc w .Witness hchk)
      | cons k0 rest =>
        refine ⟨updateAssoc st.witnesses addr ({ wit with signature_key := k0.address }), ?_⟩
        simp [witnessStep, hw, hb, hk]
  obtain ⟨w1, hw1⟩ := hws
  have hfeq : ctx'.contract_fee = c.fee st := by rw [hctx]
  unfold AccountPermissionUpdateContract.execute
  simp only [hp, ha, hw1]
  by_cases hf : ctx'.contract_fee = 0
  · rw [if_neg (not_not_intro hf)]
    exact ⟨_, _, rfl⟩
  · rw [if_pos hf]
    have hadj : ¬ ((applyPermissions c acct).balance + -ctx'.contract_fee < 0) := by
      rw [applyPermissions_balance, hfeq]
      linarith
    unfold adjust_balance
    rw [if_neg hadj]
    exact ⟨_, _, rfl⟩

/-- Witness for C9 at a concrete validated contract. -/
theorem C9_witness :
    ∃ r st', AccountPermissionUpdateContract.execute exGoodContract exState ⟨100⟩
        = .ok (r, st') :=
  C9_validate_implies_execute_succeeds dcAll exGoodContract exState ⟨0⟩ ⟨100⟩ (by rfl)

theorem applyPermissions_override (c : AccountPermissionUpdateContract) (op : Permission)
    (ho : c.owner = some op) (a : Account) (b x : Int) :
    ({ applyPermissions c ({ applyPermissions c a with balance := b }) with balance := x })
      = { ({ applyPermissions c a with balance := b } : Account) with balance := x } := by
  rw [applyPermissions_of_owner_some c _ op ho, applyPermissions_of_owner_some c a op ho]

theorem APU_round (dc : Nat → Bool) (c : AccountPermissionUpdateContract) (st : State)
    (ctx ctx' : TransactionContext) (r : TransactionResult) (st' : State)
    (hv : AccountPermissionUpdateContract.validate dc c st ctx = .ok ctx')
    (hx : AccountPermissionUpdateContract.execute c st ctx' = .ok (r, st')) :
    ∃ addr acct op w1,
      addressParse c.owner_address = some addr ∧
      lookupAssoc st.accounts addr = some acct ∧
      c.owner = some op ∧
      witnessStep c st addr = .ok w1 ∧
      st'.witnesses = w1 ∧
      st'.accountPermissionUpdateFee = st.accountPermissionUpdateFee ∧
      lookupAssoc st'.accounts addr
        = some ({ applyPermissions c acct with balance := acct.balance - c.fee st }) := by
  obtain ⟨addr, acct, op, hp, ha, ho, hwb, hop, hacts, hfee, hctx⟩ :=
    APU_validate_ok_inv dc c st ctx ctx' hv
  obtain ⟨w1, hws, hbr⟩ := APU_execute_ok_char c st ctx' r st' addr acct hp ha hx
  have hfeq : ctx'.contract_fee = c.fee st := by rw [hctx]
  rcases hbr with ⟨hfne, acct2, hadj, hst'⟩ | ⟨hf0, hst'⟩
  · have hacct2 : acct2
        = { applyPermissions c acct with balance := acct.balance - c.fee st } := by
      unfold adjust_balance at hadj
      split at hadj
      · exact Option.noConfusion hadj
      · injection hadj with hadj
        rw [← hadj, applyPermissions_balance, hfeq, ← sub_eq_add_neg]
    subst hst'
    refine ⟨addr, acct, op, w1, hp, ha, ho, hws, rfl, rfl, ?_⟩
    show lookupAssoc (updateAssoc st.accounts addr acct2) addr = _
    rw [lookupAssoc_updateAssoc_self, hacct2]
  · have hfeq0 : c.fee st = 0 := by rw [← hfeq, hf0]
    have happ : ({ applyPermissions c acct with balance := acct.balance - c.fee st })
        = applyPermissions c acct := by
      rw [hfeq0, sub_zero, ← applyPermissions_balance c acct]
    subst hst'
    refine ⟨addr, acct, op, w1, hp, ha, ho, hws, rfl, rfl, ?_⟩
    show lookupAssoc (updateAssoc st.accounts addr (applyPermissions c acct)) addr = _
    rw [lookupAssoc_updateAssoc_self, happ]

/-- C10: running validate-then-execute twice with the same
AccountPermissionUpdateContract yields, after the second execution, the same
owner account as after the first except for the balance, which is lower by
the fee once per execution; the permissions and the witness record's
signature key are identical after one and after two executions. -/
theorem C10_idempotent_modulo_fee (dc : Nat → Bool) (c : AccountPermissionUpdateContract)
    (st : State) (ctxA ctxB ctx₁ ctx₂ : TransactionContext) (r₁ r₂ : TransactionResult)
    (st₁ st₂ : State)
    (hv₁ : AccountPermissionUpdateContract.validate dc c st ctxA = .ok ctx₁)
    (hx₁ : AccountPermissionUpdateContract.execute c st ctx₁ = .ok (r₁, st₁))
    (hv₂ : AccountPermissionUpdateContract.validate dc c st₁ ctxB = .ok ctx₂)
    (hx₂ : AccountPermissionUpdateContract.execute c st₁ ctx₂ = .ok (r₂, st₂)) :
    ∃ addr acct₁ acct₂,
      addressParse c.owner_address = some addr ∧
      lookupAssoc st₁.accounts addr = some acct₁ ∧
      lookupAssoc st₂.accounts addr = some acct₂ ∧
      acct₂ = { acct₁ with balance := acct₁.balance - st.accountPermissionUpdateFee } ∧
      (lookupAssoc st₂.witnesses addr).map WitnessRecord.signature_key
        = (lookupAssoc st₁.witnesses addr).map WitnessRecord.signature_key := by
  obtain ⟨addr, acct, op, w1, hp, ha, ho, hws₁, hw₁, hfeepres, hlook₁⟩ :=
    APU_round dc c st ctxA ctx₁ r₁ st₁ hv₁ hx₁
  obtain ⟨addr', acct₁', op', w2, hp', ha₁', ho', hws₂, hw₂, hfeepres₂, hlook₂⟩ :=
    APU_round dc c st₁ ctxB ctx₂ r₂ st₂ hv₂ hx₂
  rw [hp] at hp'
  injection hp' with haddr
  subst haddr
  rw [hlook₁] at ha₁'
  injection ha₁' with hacct₁'
  subst hacct₁'
  have hfee2 : c.fee st₁ = c.fee st := hfeepres
  refine ⟨addr, _, _, hp, hlook₁, hlook₂, ?_, ?_⟩
  · rw [hfee2, applyPermissions_override c op ho]
    rfl
  · rcases witnessStep_ok_char c st₁ addr w2 hws₂ with ⟨hcw2, hw2eq⟩ |
      ⟨w, wit, k0, rest, hcw2, hwit₁, hk, hw2eq⟩
    · rw [hw₂, hw2eq]
    · rcases witnessStep_ok_char c st addr w1 hws₁ with ⟨hcw1, _⟩ |
        ⟨w', wit', k0', rest', hcw1, hwit₀, hk', hw1eq⟩
      · rw [hcw1] at hcw2
        exact Option.noConfusion hcw2
      · rw [hcw1] at hcw2
        injection hcw2 with hww
        subst hww
        rw [hk] at hk'
        injection hk' with hk0 hrest
        subst hk0
        have hwitval : wit = { wit' with signature_key := k0.address } := by
          rw [hw₁, hw1eq, lookupAssoc_updateAssoc_self] at hwit₁
          injection hwit₁ with h
          exact h.symm
        rw [hw₂, hw2eq, lookupAssoc_updateAssoc_self, hwit₁, hwitval]

/-- Witness for C10 at a concrete double execution with fee 100 each time. -/
theorem C10_witness :
    ∃ addr acct₁ acct₂,
      addressParse exGoodContract.owner_address = some addr ∧
      lookupAssoc exStateAfter.accounts addr = some acct₁ ∧
      lookupAssoc exStateAfter2.accounts addr = some acct₂ ∧
      acct₂ = { acct₁ with balance := acct₁.balance - exState.accountPermissionUpdateFee } ∧
      (lookupAssoc exStateAfter2.witnesses addr).map WitnessRecord.signature_key
        = (lookupAssoc exStateAfter.witnesses addr).map WitnessRecord.signature_key :=
  C10_idempotent_modulo_fee dcAll exGoodContract exState ⟨0⟩ ⟨0⟩ ⟨100⟩ ⟨100⟩
    .success .success exStateAfter exStateAfter2 (by rfl) (by rfl) (by rfl) (by rfl)

end OpenTron
